import Mathlib

/-!
Shallow embedding of the training-session orchestrator
(`Source/CNTKv2LibraryDll/TrainingSession.cpp`) and proofs about it.

Conventions:
- `size_t` counters (sample counts, frequencies, indices) are modelled as `Nat`;
  the machine width matters in two places and is modelled explicitly there: the
  `std::numeric_limits<size_t>::max()` sentinel in `SessionConfig::Checkpointing`
  (`sizeTMax = 2^64 - 1`), and the `strtol`-into-`int` pipeline of checkpoint
  discovery (`strtol` clamps at the platform's `LONG_MAX`, passed in as a
  parameter, and the `long`-to-`int` narrowing wraps modulo `2^32`).
- wide strings (`std::wstring`) are modelled as `List Char`.
- external collaborators (trainer, minibatch sources, file system) are passed in as
  explicit functions or data, mirroring only the behavior the orchestrator observes.
-/

/-- Model of a `std::wstring` file name / path. -/
abbrev WStr := List Char

/-- The bookkeeping fields of `TrainingSession::PeriodicAction`
(`frequency`, `currentIndex`, `sampleCountWhenLastCalled`); the callable itself
is passed separately as a handler function where needed. -/
structure PeriodicAction where
  frequency : Nat
  currentIndex : Nat
  sampleCountWhenLastCalled : Nat
deriving DecidableEq, Repr

/-- Body of the per-action part of the main training loop
(`TrainingSession.cpp` lines 256-268): compute `index = totalNumberOfSamples / frequency`;
if it differs from `currentIndex`, call the handler with the old `currentIndex`
(recorded in the third component as `some oldIndex`), accumulate `earlyExit` from the
handler's negated return, and update both bookkeeping fields; otherwise change nothing.
Returns (updated action, new earlyExit flag, index passed to the handler if it fired). -/
def actionStep (handler : Nat → Bool) (totalNumberOfSamples : Nat)
    (a : PeriodicAction) (earlyExit : Bool) : PeriodicAction × Bool × Option Nat :=
  let index := totalNumberOfSamples / a.frequency
  if index = a.currentIndex then
    (a, earlyExit, none)
  else
    let shouldContinue := handler a.currentIndex
    ({ frequency := a.frequency, currentIndex := index,
       sampleCountWhenLastCalled := totalNumberOfSamples },
     earlyExit || !shouldContinue,
     some a.currentIndex)

/-- The whole `for (auto& action : m_actions)` loop of one training iteration
(lines 256-268): runs `actionStep` on every action in order, threading the
`earlyExit` flag; `handlers k` is the callable of the action at position `k`. -/
def performActions (handlers : Nat → Nat → Bool) (totalNumberOfSamples : Nat) :
    Nat → Bool → List PeriodicAction → List PeriodicAction × Bool
  | _, earlyExit, [] => ([], earlyExit)
  | k, earlyExit, a :: rest =>
    let st := actionStep (handlers k) totalNumberOfSamples a earlyExit
    let res := performActions handlers totalNumberOfSamples (k + 1) st.2.1 rest
    (st.1 :: res.1, res.2)

/-- The claim C1 statement needs the observable pieces of `actionStep`. -/
theorem actionStep_fst (handler : Nat → Bool) (total : Nat) (a : PeriodicAction) (e : Bool) :
    (actionStep handler total a e).1 =
      if total / a.frequency = a.currentIndex then a
      else { frequency := a.frequency, currentIndex := total / a.frequency,
             sampleCountWhenLastCalled := total } := by
  unfold actionStep
  by_cases h : total / a.frequency = a.currentIndex <;> simp [h]

/-- C1: in each loop iteration, for every `PeriodicAction` the orchestrator computes
`index = totalNumberOfSamples / frequency` (integer division); the action fires exactly
when `index ≠ currentIndex`; when it fires it is passed the old `currentIndex` and only
then are `currentIndex` set to `index` and `sampleCountWhenLastCalled` set to
`totalNumberOfSamples`; when it does not fire neither field changes. -/
theorem claim_C1 (handler : Nat → Bool) (total : Nat) (a : PeriodicAction) (e : Bool) :
    ((actionStep handler total a e).2.2.isSome ↔ total / a.frequency ≠ a.currentIndex)
    ∧ (∀ i, (actionStep handler total a e).2.2 = some i → i = a.currentIndex)
    ∧ (total / a.frequency ≠ a.currentIndex →
        (actionStep handler total a e).1 =
          { frequency := a.frequency, currentIndex := total / a.frequency,
            sampleCountWhenLastCalled := total })
    ∧ (total / a.frequency = a.currentIndex → (actionStep handler total a e).1 = a) := by
  unfold actionStep
  by_cases h : total / a.frequency = a.currentIndex <;> simp [h]

/-- Witness for C1 at a concrete input: with `total = 7`, frequency 3 and
`currentIndex = 1` the action fires, is passed the old index 1, and its fields
become `currentIndex = 7 / 3 = 2`, `sampleCountWhenLastCalled = 7`. -/
theorem claim_C1_witness :
    (actionStep (fun _ => true) 7 ⟨3, 1, 3⟩ false).1 = ⟨3, 2, 7⟩ ∧
    (actionStep (fun _ => true) 7 ⟨3, 1, 3⟩ false).2.2 = some 1 := by
  refine ⟨(claim_C1 (fun _ => true) 7 ⟨3, 1, 3⟩ false).2.2.1 (by decide), ?_⟩
  have h := (claim_C1 (fun _ => true) 7 ⟨3, 1, 3⟩ false).1
  decide

/-- Iterates the per-action body of the main loop over a full run: `trace` is the
sequence of `totalNumberOfSamples` values read at line 255 in successive loop
iterations. Returns the final action state and the list of period indices
(`total / frequency`) at which the action fired, in run order. -/
def runAction (a : PeriodicAction) : List Nat → PeriodicAction × List Nat
  | [] => (a, [])
  | t :: ts =>
    let index := t / a.frequency
    if index = a.currentIndex then runAction a ts
    else
      let res := runAction { frequency := a.frequency, currentIndex := index,
                             sampleCountWhenLastCalled := t } ts
      (res.1, index :: res.2)

theorem runAction_cons_nofire {a : PeriodicAction} {t : Nat} (ts : List Nat)
    (hq : t / a.frequency = a.currentIndex) : runAction a (t :: ts) = runAction a ts := by
  conv_lhs => rw [runAction]
  simp [hq]

theorem runAction_cons_fire {a : PeriodicAction} {t : Nat} (ts : List Nat)
    (hq : t / a.frequency ≠ a.currentIndex) :
    runAction a (t :: ts) =
      ((runAction { frequency := a.frequency, currentIndex := t / a.frequency,
                    sampleCountWhenLastCalled := t } ts).1,
       t / a.frequency ::
         (runAction { frequency := a.frequency, currentIndex := t / a.frequency,
                      sampleCountWhenLastCalled := t } ts).2) := by
  conv_lhs => rw [runAction]
  simp [hq]

/-- Each step of `runAction` is exactly the bookkeeping part of `actionStep`
(the handler result and the `earlyExit` flag do not affect the fields). -/
theorem runAction_cons_eq_actionStep (h : Nat → Bool) (e : Bool) (a : PeriodicAction)
    (t : Nat) (ts : List Nat) :
    runAction a (t :: ts) =
      ((runAction (actionStep h t a e).1 ts).1,
       (if (actionStep h t a e).2.2.isSome then [t / a.frequency] else []) ++
         (runAction (actionStep h t a e).1 ts).2) := by
  by_cases hq : t / a.frequency = a.currentIndex
  · rw [runAction_cons_nofire ts hq]
    unfold actionStep
    simp [hq]
  · rw [runAction_cons_fire ts hq]
    unfold actionStep
    simp [hq]

/-- Counterexample to C2 as stated: with frequency `F = 2` and a single training
iteration that takes the cumulative counter from 0 to 4 (crossing the period
boundaries 2 and 4 at once), the action fires only once, not once for each of
the boundaries `F, 2F`; so the fire count does not equal `totalSamples / F`. -/
theorem claim_C2_counterexample :
    ¬ (∀ (F : Nat) (trace : List Nat), 0 < F → trace.Pairwise (· ≤ ·) →
        (runAction ⟨F, 0, 0⟩ trace).2.length = trace.getLast?.getD 0 / F) := by
  intro h
  exact absurd (h 2 [4] (by decide) (by simp)) (by decide)

/-- C2 (amended): along a run with monotonically non-decreasing observed sample
counts that never fall behind the action's current period, the sequence of fired
period indices is strictly increasing (so the action never fires twice for the
same period), every period index actually attained by an observed sample count
fires exactly once (unless it is the initial index), and fires happen only at
attained period indices. Period indices skipped over inside one iteration never
fire, which is the correction to the claim as stated. -/
theorem claim_C2 (a : PeriodicAction) (trace : List Nat)
    (hmono : trace.Pairwise (· ≤ ·))
    (hinit : ∀ t ∈ trace, a.currentIndex ≤ t / a.frequency) :
    List.Chain' (· < ·) (a.currentIndex :: (runAction a trace).2)
    ∧ (∀ t ∈ trace, t / a.frequency = a.currentIndex ∨
        t / a.frequency ∈ (runAction a trace).2)
    ∧ (∀ v ∈ (runAction a trace).2, v ∈ trace.map (· / a.frequency)) := by
  induction trace generalizing a with
  | nil => simp [runAction]
  | cons t ts ih =>
    rw [List.pairwise_cons] at hmono
    obtain ⟨hhead, hts⟩ := hmono
    by_cases hq : t / a.frequency = a.currentIndex
    · rw [runAction_cons_nofire ts hq]
      obtain ⟨c1, c2, c3⟩ := ih a hts (fun u hu => hinit u (List.mem_cons_of_mem t hu))
      refine ⟨c1, ?_, ?_⟩
      · intro u hu
        rcases List.mem_cons.mp hu with rfl | hu
        · exact Or.inl hq
        · exact c2 u hu
      · intro v hv
        simpa using Or.inr (by simpa using c3 v hv)
    · rw [runAction_cons_fire ts hq]
      have hlt : a.currentIndex < t / a.frequency :=
        lt_of_le_of_ne (hinit t (List.mem_cons_self t ts)) (Ne.symm hq)
      have hinit' : ∀ u ∈ ts,
          (PeriodicAction.mk a.frequency (t / a.frequency) t).currentIndex ≤
            u / (PeriodicAction.mk a.frequency (t / a.frequency) t).frequency :=
        fun u hu => Nat.div_le_div_right (hhead u hu)
      obtain ⟨c1, c2, c3⟩ := ih _ hts hinit'
      refine ⟨?_, ?_, ?_⟩
      · exact List.chain'_cons.mpr ⟨hlt, c1⟩
      · intro u hu
        rcases List.mem_cons.mp hu with rfl | hu
        · exact Or.inr (List.mem_cons_self _ _)
        · rcases c2 u hu with h' | h'
          · exact Or.inr (by simpa using Or.inl h')
          · exact Or.inr (List.mem_cons_of_mem _ h')
      · intro v hv
        rcases List.mem_cons.mp hv with rfl | hv
        · simp
        · have := c3 v hv
          simpa using Or.inr (by simpa using this)

/-- Witness for C2 (amended) at a concrete run: frequency 3, observations
`[2, 4, 7, 8, 13]`; the attained period indices are `0, 1, 2, 4`; the action
fires exactly at `1, 2, 4` (strictly increasing, one fire per attained period,
period 3 is skipped because no observation falls in it). -/
theorem claim_C2_witness :
    List.Chain' (· < ·) (0 :: (runAction ⟨3, 0, 0⟩ [2, 4, 7, 8, 13]).2)
    ∧ (runAction ⟨3, 0, 0⟩ [2, 4, 7, 8, 13]).2 = [1, 2, 4] := by
  constructor
  · exact (claim_C2 ⟨3, 0, 0⟩ [2, 4, 7, 8, 13] (by decide) (by decide)).1
  · decide

/-- Division bounds used throughout: `F * (t / F) ≤ t < F * (t / F + 1)` for `F > 0`. -/
theorem div_mul_bounds {F : Nat} (hF : 0 < F) (t : Nat) :
    F * (t / F) ≤ t ∧ t < F * (t / F + 1) := by
  constructor
  · calc F * (t / F) ≤ F * (t / F) + t % F := Nat.le_add_right _ _
      _ = t := Nat.div_add_mod t F
  · calc t = F * (t / F) + t % F := (Nat.div_add_mod t F).symm
      _ < F * (t / F) + F := Nat.add_lt_add_left (Nat.mod_lt t hF) _
      _ = F * (t / F + 1) := (Nat.mul_succ F _).symm

/-- Recalculation of one action after a successful checkpoint restore
(`TrainingSession.cpp` lines 469-473): `currentIndex = totalNumberOfSamples / frequency`
and `sampleCountWhenLastCalled = totalNumberOfSamples - totalNumberOfSamples % frequency`. -/
def restoreAction (totalNumberOfSamples : Nat) (a : PeriodicAction) : PeriodicAction :=
  { frequency := a.frequency,
    currentIndex := totalNumberOfSamples / a.frequency,
    sampleCountWhenLastCalled := totalNumberOfSamples - totalNumberOfSamples % a.frequency }

/-- The whole recalculation loop over `m_actions` after a successful restore. -/
def restoreActions (totalNumberOfSamples : Nat) (actions : List PeriodicAction) :
    List PeriodicAction :=
  actions.map (restoreAction totalNumberOfSamples)

theorem restoreAction_sampleCount (total : Nat) (a : PeriodicAction) :
    (restoreAction total a).sampleCountWhenLastCalled =
      a.frequency * (total / a.frequency) := by
  show total - total % a.frequency = _
  exact Nat.sub_eq_of_eq_add (Nat.div_add_mod total a.frequency).symm

/-- C3: after a successful restore with restored counter `total`, every action's
`currentIndex` becomes `total / frequency` and `sampleCountWhenLastCalled` is
recomputed from the same counter (to the last period boundary); afterwards no
observation inside the restore-straddling period re-fires the action, the first
index the handler can be passed is exactly the straddling period `total / frequency`,
and any observation from the next period boundary on does fire with that index. -/
theorem claim_C3 (total : Nat) (actions : List PeriodicAction) (a : PeriodicAction)
    (ha : a ∈ actions) (hF : 0 < a.frequency) :
    restoreAction total a ∈ restoreActions total actions
    ∧ (restoreAction total a).currentIndex = total / a.frequency
    ∧ (restoreAction total a).sampleCountWhenLastCalled =
        a.frequency * (total / a.frequency)
    ∧ (∀ handler e t, t / a.frequency = total / a.frequency →
        actionStep handler t (restoreAction total a) e = (restoreAction total a, e, none))
    ∧ (∀ handler e t i, (actionStep handler t (restoreAction total a) e).2.2 = some i →
        i = total / a.frequency)
    ∧ (∀ handler e t, a.frequency * (total / a.frequency + 1) ≤ t →
        (actionStep handler t (restoreAction total a) e).2.2 =
          some (total / a.frequency)) := by
  refine ⟨List.mem_map_of_mem _ ha, rfl, restoreAction_sampleCount total a, ?_, ?_, ?_⟩
  · intro handler e t ht
    unfold actionStep
    simp [restoreAction, ht]
  · intro handler e t i h
    by_cases hq : t / a.frequency = total / a.frequency
    · simp [actionStep, restoreAction, hq] at h
    · simp [actionStep, restoreAction, hq] at h
      exact h.symm
  · intro handler e t hle
    have hge : total / a.frequency + 1 ≤ t / a.frequency := by
      rw [Nat.le_div_iff_mul_le hF, Nat.mul_comm]
      exact hle
    have hne : t / a.frequency ≠ total / a.frequency := by omega
    simp [actionStep, restoreAction, hne]

/-- Witness for C3 at a concrete input: restore with counter 7, frequency 3:
`currentIndex = 7 / 3 = 2`, `sampleCountWhenLastCalled = 6`; an observation at 8
(same period) does not fire; an observation at 9 (next boundary) fires with the
straddling period index 2. -/
theorem claim_C3_witness :
    restoreAction 7 ⟨3, 5, 9⟩ ∈ restoreActions 7 [⟨3, 5, 9⟩]
    ∧ (restoreAction 7 ⟨3, 5, 9⟩).currentIndex = 2
    ∧ (restoreAction 7 ⟨3, 5, 9⟩).sampleCountWhenLastCalled = 6
    ∧ actionStep (fun _ => true) 8 (restoreAction 7 ⟨3, 5, 9⟩) false =
        (restoreAction 7 ⟨3, 5, 9⟩, false, none)
    ∧ (actionStep (fun _ => true) 9 (restoreAction 7 ⟨3, 5, 9⟩) false).2.2 = some 2 := by
  have h := claim_C3 7 [⟨3, 5, 9⟩] ⟨3, 5, 9⟩ (by decide) (by decide)
  exact ⟨h.1, h.2.1, h.2.2.1, h.2.2.2.1 (fun _ => true) false 8 (by decide),
         h.2.2.2.2.2 (fun _ => true) false 9 (by decide)⟩

/-- The fields of `SessionConfig` relevant to the orchestrator's control flow
(sources, schedules and writers are external collaborators and are passed
separately where needed). Defaults are the member initializers of the source. -/
structure SessionConfig where
  withCheckpointing : Bool := false
  checkPointFileName : WStr := []
  checkpointFrequencyInSamples : Nat := 0
  preserveAllCheckpoints : Bool := false
  restoreFromCheckpointIfExists : Bool := false
  withCrossValidation : Bool := false
  crossValidationFrequencyInSamples : Nat := 0
  withProgressPrinting : Bool := false
  progressFrequencyInSamples : Nat := 0
deriving DecidableEq, Repr

/-- The two error kinds `SessionConfig` methods can raise. -/
inductive ConfigError
  | invalidArgument
  | runtimeError
deriving DecidableEq, Repr

/-- Model of `std::numeric_limits<size_t>::max()` on a 64-bit platform. -/
def sizeTMax : Nat := 2 ^ 64 - 1

/-- Embedding of `SessionConfig::Checkpointing` (`TrainingSession.cpp` lines 49-73):
re-setting raises a runtime error; an empty file name with a frequency that is
neither 0 nor `numeric_limits<size_t>::max()` raises invalid-argument, as does an
empty file name with `preserveAllCheckpoints` set; otherwise an empty file name
forces the frequency to 0 and the call succeeds. -/
def SessionConfig.Checkpointing (cfg : SessionConfig) (checkPointFileName : WStr)
    (checkpointFrequencyInSamples : Nat) (restoreFromCheckpointIfExists : Bool)
    (preserveAllCheckpoints : Bool) : Except ConfigError SessionConfig :=
  if cfg.withCheckpointing then
    Except.error ConfigError.runtimeError
  else if checkPointFileName.isEmpty then
    if checkpointFrequencyInSamples ≠ 0 ∧ checkpointFrequencyInSamples ≠ sizeTMax then
      Except.error ConfigError.invalidArgument
    else if preserveAllCheckpoints then
      Except.error ConfigError.invalidArgument
    else
      Except.ok { cfg with
        checkPointFileName := checkPointFileName,
        preserveAllCheckpoints := preserveAllCheckpoints,
        restoreFromCheckpointIfExists := restoreFromCheckpointIfExists,
        checkpointFrequencyInSamples := 0,
        withCheckpointing := true }
  else
    Except.ok { cfg with
      checkPointFileName := checkPointFileName,
      preserveAllCheckpoints := preserveAllCheckpoints,
      restoreFromCheckpointIfExists := restoreFromCheckpointIfExists,
      checkpointFrequencyInSamples := checkpointFrequencyInSamples,
      withCheckpointing := true }

/-- Counterexample to C8 as stated: the frequency `numeric_limits<size_t>::max()`
is nonzero, yet `Checkpointing` with an empty path accepts it (treating it as the
"disabled" sentinel and forcing the stored frequency to 0) instead of raising
invalid-argument. -/
theorem claim_C8_counterexample :
    sizeTMax ≠ 0
    ∧ SessionConfig.Checkpointing {} [] sizeTMax false false =
        Except.ok { withCheckpointing := true } := by
  constructor
  · decide
  · simp [SessionConfig.Checkpointing, sizeTMax]

/-- C8 (amended): with an empty checkpoint path, `Checkpointing` raises
invalid-argument exactly when the frequency is neither 0 nor the
`numeric_limits<size_t>::max()` sentinel, or when preserve-all-checkpoints is set;
in the remaining cases it succeeds with the frequency forced to 0. -/
theorem claim_C8 (cfg : SessionConfig) (hcfg : cfg.withCheckpointing = false)
    (freq : Nat) (restore preserveAll : Bool) :
    ((freq ≠ 0 ∧ freq ≠ sizeTMax) ∨ preserveAll = true →
      SessionConfig.Checkpointing cfg [] freq restore preserveAll =
        Except.error ConfigError.invalidArgument)
    ∧ ((freq = 0 ∨ freq = sizeTMax) → preserveAll = false →
      SessionConfig.Checkpointing cfg [] freq restore preserveAll =
        Except.ok { cfg with
          checkPointFileName := [],
          preserveAllCheckpoints := false,
          restoreFromCheckpointIfExists := restore,
          checkpointFrequencyInSamples := 0,
          withCheckpointing := true }) := by
  constructor
  · rintro (⟨h1, h2⟩ | hp)
    · simp [SessionConfig.Checkpointing, hcfg, h1, h2]
    · subst hp
      by_cases h : freq ≠ 0 ∧ freq ≠ sizeTMax <;>
        simp [SessionConfig.Checkpointing, hcfg, h]
  · rintro hfreq hp
    subst hp
    have h : ¬(freq ≠ 0 ∧ freq ≠ sizeTMax) := by tauto
    simp [SessionConfig.Checkpointing, hcfg, h]

/-- Witness for C8 (amended): empty path with frequency 5 raises invalid-argument;
empty path with frequency 0 succeeds with checkpointing marked set and frequency 0. -/
theorem claim_C8_witness :
    SessionConfig.Checkpointing {} [] 5 false false =
        Except.error ConfigError.invalidArgument
    ∧ SessionConfig.Checkpointing {} [] 0 true false =
        Except.ok { restoreFromCheckpointIfExists := true, withCheckpointing := true } := by
  exact ⟨(claim_C8 {} rfl 5 false false).1 (Or.inl ⟨by decide, by decide⟩),
         (claim_C8 {} rfl 0 true false).2 (Or.inl rfl) rfl⟩

/-- The `m_actions` list built by the `TrainingSession` constructor
(`TrainingSession.cpp` lines 196-218): one action per enabled sub-config with a
nonzero frequency, in the fixed order checkpoint, cross-validation, progress;
every action starts with `currentIndex = 0` and `sampleCountWhenLastCalled = 0`. -/
def initialActions (cfg : SessionConfig) : List PeriodicAction :=
  (if cfg.withCheckpointing = true ∧ cfg.checkpointFrequencyInSamples ≠ 0 then
      [{ frequency := cfg.checkpointFrequencyInSamples, currentIndex := 0,
         sampleCountWhenLastCalled := 0 }]
    else [])
  ++ (if cfg.withCrossValidation = true ∧ cfg.crossValidationFrequencyInSamples ≠ 0 then
      [{ frequency := cfg.crossValidationFrequencyInSamples, currentIndex := 0,
         sampleCountWhenLastCalled := 0 }]
    else [])
  ++ (if cfg.withProgressPrinting = true ∧ cfg.progressFrequencyInSamples ≠ 0 then
      [{ frequency := cfg.progressFrequencyInSamples, currentIndex := 0,
         sampleCountWhenLastCalled := 0 }]
    else [])

/-- The implicit per-action invariant of C10:
`frequency * currentIndex ≤ sampleCountWhenLastCalled < frequency * (currentIndex + 1)`. -/
def ActionInv (a : PeriodicAction) : Prop :=
  a.frequency * a.currentIndex ≤ a.sampleCountWhenLastCalled ∧
  a.sampleCountWhenLastCalled < a.frequency * (a.currentIndex + 1)

instance (a : PeriodicAction) : Decidable (ActionInv a) := by
  unfold ActionInv
  infer_instance

theorem sub_mod_eq_mul_div (total F : Nat) : total - total % F = F * (total / F) :=
  Nat.sub_eq_of_eq_add (Nat.div_add_mod total F).symm

theorem initialActions_mem {cfg : SessionConfig} {b : PeriodicAction}
    (hb : b ∈ initialActions cfg) :
    b.currentIndex = 0 ∧ b.sampleCountWhenLastCalled = 0 ∧ b.frequency ≠ 0 := by
  unfold initialActions at hb
  rcases List.mem_append.mp hb with hb' | hb'
  · rcases List.mem_append.mp hb' with hb'' | hb''
    · by_cases h : cfg.withCheckpointing = true ∧ cfg.checkpointFrequencyInSamples ≠ 0
      · rw [if_pos h] at hb''
        simp only [List.mem_singleton] at hb''
        subst hb''
        exact ⟨rfl, rfl, h.2⟩
      · rw [if_neg h] at hb''
        simp at hb''
    · by_cases h : cfg.withCrossValidation = true ∧ cfg.crossValidationFrequencyInSamples ≠ 0
      · rw [if_pos h] at hb''
        simp only [List.mem_singleton] at hb''
        subst hb''
        exact ⟨rfl, rfl, h.2⟩
      · rw [if_neg h] at hb''
        simp at hb''
  · by_cases h : cfg.withProgressPrinting = true ∧ cfg.progressFrequencyInSamples ≠ 0
    · rw [if_pos h] at hb'
      simp only [List.mem_singleton] at hb'
      subst hb'
      exact ⟨rfl, rfl, h.2⟩
    · rw [if_neg h] at hb'
      simp at hb'

/-- C10: the invariant `frequency * currentIndex ≤ sampleCountWhenLastCalled <
frequency * (currentIndex + 1)` holds for every action the constructor builds
(all have positive frequency and both counters 0), is preserved by the per-action
body of the main loop, is re-established by the checkpoint-restore recalculation,
and is equivalent to `sampleCountWhenLastCalled / frequency = currentIndex`. -/
theorem claim_C10 (cfg : SessionConfig) (a : PeriodicAction) (handler : Nat → Bool)
    (t total : Nat) (e : Bool) :
    (∀ b ∈ initialActions cfg, 0 < b.frequency ∧ ActionInv b)
    ∧ (0 < a.frequency → ActionInv a → ActionInv (actionStep handler t a e).1)
    ∧ (0 < a.frequency → ActionInv (restoreAction total a))
    ∧ (0 < a.frequency →
        (ActionInv a ↔ a.sampleCountWhenLastCalled / a.frequency = a.currentIndex)) := by
  refine ⟨?_, ?_, ?_, ?_⟩
  · intro b hb
    obtain ⟨h0, hs, hF⟩ := initialActions_mem hb
    have hFpos := Nat.pos_of_ne_zero hF
    refine ⟨hFpos, ?_, ?_⟩
    · rw [h0, hs]
      simp
    · rw [hs, h0]
      simpa using hFpos
  · intro hF hinv
    rw [actionStep_fst]
    by_cases hq : t / a.frequency = a.currentIndex
    · rwa [if_pos hq]
    · rw [if_neg hq]
      exact div_mul_bounds hF t
  · intro hF
    simp only [ActionInv, restoreAction, sub_mod_eq_mul_div]
    refine ⟨Nat.le_refl _, ?_⟩
    rw [Nat.mul_succ]
    exact Nat.lt_add_of_pos_right hF
  · intro hF
    constructor
    · rintro ⟨h1, h2⟩
      exact Nat.div_eq_of_lt_le (by rwa [Nat.mul_comm] at h1) (by rwa [Nat.mul_comm] at h2)
    · intro h
      unfold ActionInv
      rw [← h]
      exact div_mul_bounds hF _

/-- Witness for C10 at concrete inputs: the constructor-built checkpoint action
`⟨20, 0, 0⟩` satisfies the invariant; the action `⟨3, 1, 4⟩` satisfies it and still
does after a loop step at `total = 11`; the restore recalculation at counter 11
re-establishes it; and for `⟨3, 1, 4⟩` the invariant is equivalent to `4 / 3 = 1`. -/
theorem claim_C10_witness :
    (0 < (⟨20, 0, 0⟩ : PeriodicAction).frequency ∧ ActionInv ⟨20, 0, 0⟩)
    ∧ ActionInv (actionStep (fun _ => true) 11 ⟨3, 1, 4⟩ false).1
    ∧ ActionInv (restoreAction 11 ⟨3, 1, 4⟩)
    ∧ (4 : Nat) / 3 = 1 := by
  have h := claim_C10 { withCheckpointing := true, checkpointFrequencyInSamples := 20 }
    ⟨3, 1, 4⟩ (fun _ => true) 11 11 false
  exact ⟨h.1 ⟨20, 0, 0⟩ (by decide), h.2.1 (by decide) (by decide),
         h.2.2.1 (by decide), (h.2.2.2 (by decide)).mp (by decide)⟩

/-- The sharding and size parameters of one training-minibatch fetch. -/
structure FetchRequest where
  numberOfWorkers : Nat
  workerRank : Nat
  mbSize : Nat
deriving DecidableEq, Repr

/-- Embedding of `TrainingSession::GetTrainingMinibatch` (`TrainingSession.cpp`
lines 329-343): if `m_parallelAfterSamples > TotalNumberOfSamplesSeen()` the fetch
uses one worker with rank 0, otherwise the configured worker count and rank; the
requested size is `min(GetMinibatchSize(), maxMbSize)`. -/
def getTrainingMinibatchRequest (parallelAfterSamples workerRank numberOfWorkers
    totalSamplesSeen scheduledMbSize maxMbSize : Nat) : FetchRequest :=
  let p := if totalSamplesSeen < parallelAfterSamples then (1, 0)
           else (numberOfWorkers, workerRank)
  { numberOfWorkers := p.1, workerRank := p.2,
    mbSize := min scheduledMbSize maxMbSize }

/-- C6: while the cumulative samples seen are below `parallelizationStartSample`
the fetch is requested with worker count 1 and rank 0 regardless of the configured
rank and count; at or after that threshold the configured values are used. -/
theorem claim_C6 (parallelAfter wr nw seen sched maxMb : Nat) :
    (seen < parallelAfter →
      getTrainingMinibatchRequest parallelAfter wr nw seen sched maxMb =
        { numberOfWorkers := 1, workerRank := 0, mbSize := min sched maxMb })
    ∧ (parallelAfter ≤ seen →
      getTrainingMinibatchRequest parallelAfter wr nw seen sched maxMb =
        { numberOfWorkers := nw, workerRank := wr, mbSize := min sched maxMb }) := by
  constructor
  · intro h
    simp [getTrainingMinibatchRequest, h]
  · intro h
    simp [getTrainingMinibatchRequest, Nat.not_lt.mpr h]

/-- Witness for C6: with threshold 100, configured rank 3 of 8 workers: at 99
samples seen the request is (1 worker, rank 0); at 100 it is (8 workers, rank 3). -/
theorem claim_C6_witness :
    getTrainingMinibatchRequest 100 3 8 99 32 10 =
      { numberOfWorkers := 1, workerRank := 0, mbSize := 10 }
    ∧ getTrainingMinibatchRequest 100 3 8 100 32 10 =
      { numberOfWorkers := 8, workerRank := 3, mbSize := 10 } := by
  exact ⟨(claim_C6 100 3 8 99 32 10).1 (by decide),
         (claim_C6 100 3 8 100 32 10).2 (by decide)⟩

/-- Model of `MinibatchData`: only the `data` field is observable here; a
default-constructed `MinibatchData` (as produced by `unordered_map::operator[]`
for a missing key) carries a null `ValuePtr`, modelled as `none`. -/
structure MinibatchData where
  data : Option Nat
deriving DecidableEq, Repr

/-- C++ `minibatchData[key]` on a `std::unordered_map`: the stored value if the
key is present, otherwise a default-constructed `MinibatchData`. -/
def mapIndexOrDefault (minibatchData : List (Nat × MinibatchData)) (key : Nat) :
    MinibatchData :=
  match minibatchData.lookup key with
  | some d => d
  | none => { data := none }

/-- Embedding of `TrainingSession::GetNextMinibatch` (`TrainingSession.cpp` lines
351-365): clear the minibatch; return empty when `mbSize == 0` or the fetched data
is empty; otherwise insert, for every `(variable, stream)` pair of the configured
mapping, the entry `(variable, minibatchData[stream].data)` using the
`operator[]`-with-default semantics above. Variables and stream identifiers are
modelled as `Nat`. -/
def getNextMinibatch (inputVarToStream : List (Nat × Nat)) (mbSize : Nat)
    (minibatchData : List (Nat × MinibatchData)) : List (Nat × Option Nat) :=
  if mbSize = 0 then []
  else if minibatchData.isEmpty then []
  else inputVarToStream.map (fun v => (v.1, (mapIndexOrDefault minibatchData v.2).data))

/-- Counterexample to C9 as stated: the mapping targets stream 5, the non-empty
fetch result only contains stream 4, yet no error is surfaced — `operator[]`
default-constructs, and the minibatch silently receives the entry `(1, none)`
with a null data pointer. -/
theorem claim_C9_counterexample :
    (List.lookup 5 [(4, ({ data := some 7 } : MinibatchData))]) = none
    ∧ [(4, ({ data := some 7 } : MinibatchData))] ≠ []
    ∧ getNextMinibatch [(1, 5)] 4 [(4, { data := some 7 })] = [(1, none)] := by
  refine ⟨rfl, by decide, rfl⟩

/-- C9 (amended): for a nonzero requested size and a non-empty fetch result, the
remap produces one entry per configured `(variable, stream)` pair; a stream present
in the fetch result contributes its data, and a stream that is absent contributes a
silently default-constructed entry with null data — no error is raised. -/
theorem claim_C9 (mapping : List (Nat × Nat)) (mbSize : Nat)
    (minibatchData : List (Nat × MinibatchData))
    (hmb : mbSize ≠ 0) (hne : minibatchData.isEmpty = false) :
    getNextMinibatch mapping mbSize minibatchData =
      mapping.map (fun v => (v.1,
        match minibatchData.lookup v.2 with
        | some d => d.data
        | none => none))
    ∧ (∀ v ∈ mapping, minibatchData.lookup v.2 = none →
        (v.1, (none : Option Nat)) ∈ getNextMinibatch mapping mbSize minibatchData) := by
  have hmain : getNextMinibatch mapping mbSize minibatchData =
      mapping.map (fun v => (v.1,
        match minibatchData.lookup v.2 with
        | some d => d.data
        | none => none)) := by
    unfold getNextMinibatch
    rw [if_neg hmb, if_neg (by simp [hne])]
    refine List.map_congr_left (fun v _ => ?_)
    unfold mapIndexOrDefault
    cases minibatchData.lookup v.2 <;> rfl
  refine ⟨hmain, ?_⟩
  intro v hv hmiss
  rw [hmain]
  refine List.mem_map.mpr ⟨v, hv, ?_⟩
  simp [hmiss]

/-- Witness for C9 (amended) at a concrete input: mapping `[(1, 5), (2, 4)]`,
fetch result containing only stream 4: the remap yields the real data for
variable 2 and a silent null entry for variable 1. -/
theorem claim_C9_witness :
    getNextMinibatch [(1, 5), (2, 4)] 4 [(4, { data := some 7 })] =
      [(1, none), (2, some 7)]
    ∧ (1, (none : Option Nat)) ∈ getNextMinibatch [(1, 5), (2, 4)] 4 [(4, { data := some 7 })] := by
  have h := claim_C9 [(1, 5), (2, 4)] 4 [(4, { data := some 7 })] (by decide) (by decide)
  exact ⟨by rw [h.1]; decide, h.2 (1, 5) (by decide) (by decide)⟩

/-- A deterministic, checkpointable validation data source, observed through the
orchestrator's eyes: its state is a cursor (`GetCheckpointState` returns it,
`RestoreFromCheckpoint` sets it); a fetch at a cursor with a requested size yields
a batch with `batchSamples` samples (0 meaning the empty batch that ends the pass),
a per-batch error as reported by `TestMinibatch`, and advances the cursor. -/
structure CrossValSource where
  batchSamples : Nat → Nat → Nat
  batchError : Nat → Nat → ℚ
  advance : Nat → Nat → Nat

/-- The fetch-test-accumulate loop of `TrainingSession::CrossValidate`
(`TrainingSession.cpp` lines 303-312), fuelled: state is (cursor, sampleCount from
the previous `TestMinibatch`, accumulated error, total samples, minibatch count);
a requested size of 0 short-circuits to an empty batch without touching the source
(line 355). Returns `none` on fuel exhaustion, otherwise the accumulators and the
source cursor after the final (empty) fetch. -/
def cvLoop (src : CrossValSource) (schedule : Nat → Nat) :
    Nat → Nat → Nat → ℚ → Nat → Nat → Option (ℚ × Nat × Nat × Nat)
  | 0, _, _, _, _, _ => none
  | fuel + 1, cursor, sampleCount, accErr, totalSamples, numMB =>
    let mbSize := schedule sampleCount
    let fetched := if mbSize = 0 then (0, cursor)
                   else (src.batchSamples cursor mbSize, src.advance cursor mbSize)
    if fetched.1 = 0 then some (accErr, totalSamples, numMB, fetched.2)
    else
      cvLoop src schedule fuel fetched.2 fetched.1
        (accErr + src.batchError cursor mbSize * (fetched.1 : ℚ))
        (totalSamples + fetched.1) (numMB + 1)

/-- Embedding of `TrainingSession::CrossValidate` with a configured validation
source (`TrainingSession.cpp` lines 294-317): snapshot the source's checkpoint
state, run the accumulation loop, restore the snapshot, and report the mean error
`accumulatedError / totalNumberOfSamples` plus the sample and minibatch counts.
Returns (mean error, total samples, minibatches, final source state). -/
def crossValidate (src : CrossValSource) (schedule : Nat → Nat) (fuel : Nat)
    (sourceState : Nat) : Option (ℚ × Nat × Nat × Nat) :=
  let checkpoint := sourceState
  match cvLoop src schedule fuel sourceState 0 0 0 0 with
  | none => none
  | some (accErr, totalSamples, numMB, _) =>
    some (accErr / (totalSamples : ℚ), totalSamples, numMB, checkpoint)

/-- C7: cross-validation leaves the validation source's observable position
unchanged (the final source state equals the initial one, because the snapshot
taken before the pass is restored afterwards), so running it again from the
resulting state yields the identical mean error and counts. -/
theorem claim_C7 (src : CrossValSource) (schedule : Nat → Nat) (fuel : Nat)
    (s : Nat) (meanErr : ℚ) (totalSamples numMB finalState : Nat)
    (h : crossValidate src schedule fuel s =
      some (meanErr, totalSamples, numMB, finalState)) :
    finalState = s
    ∧ crossValidate src schedule fuel finalState =
        some (meanErr, totalSamples, numMB, finalState) := by
  have hfs : finalState = s := by
    unfold crossValidate at h
    cases hcv : cvLoop src schedule fuel s 0 0 0 0 with
    | none => rw [hcv] at h; simp at h
    | some r =>
      rw [hcv] at h
      obtain ⟨a1, a2, a3, a4⟩ := r
      simp at h
      exact h.2.2.2.symm
  subst hfs
  exact ⟨rfl, h⟩

/-- Concrete deterministic validation source for the C7 witness: immediately
exhausted (every fetch returns the empty batch) but its cursor advances on each
fetch, so the snapshot/restore of the checkpoint state is observable. -/
def cvSourceW : CrossValSource :=
  { batchSamples := fun _ _ => 0,
    batchError := fun _ _ => 0,
    advance := fun c _ => c + 1 }

/-- Witness for C7 at a concrete input: from cursor 0 with constant schedule 3
the single (empty) fetch advances the source's cursor to 1, yet cross-validation
reports final source state 0 — the snapshot taken before the pass was restored —
with 0 samples and 0 minibatches. -/
theorem claim_C7_witness :
    crossValidate cvSourceW (fun _ => 3) 1 0 =
      some ((0 : ℚ) / ((0 : Nat) : ℚ), 0, 0, 0) :=
  (claim_C7 cvSourceW (fun _ => 3) 1 0 ((0 : ℚ) / ((0 : Nat) : ℚ)) 0 0 0 rfl).2

/-- The external collaborators of the main training loop, as the orchestrator
observes them: the sample budget, the minibatch-size schedule (a function of the
samples seen), the step-executor (`TrainMinibatch`: requested minibatch size and
samples seen before the step, returning the should-train flag and the samples
seen after), and the per-position action handlers. -/
structure TrainEnv where
  maxNumTrainingSamples : Nat
  mbSchedule : Nat → Nat
  trainMinibatch : Nat → Nat → Bool × Nat
  handlers : Nat → Nat → Bool

/-- The mutable state of `TrainingSession::Train` across iterations: the trainer's
cumulative sample count, the `earlyExit` flag, and the `m_actions` list. -/
structure TrainState where
  total : Nat
  earlyExit : Bool
  actions : List PeriodicAction
deriving DecidableEq, Repr

/-- The `samplesLeft` computation of the main loop (`TrainingSession.cpp` lines
239-241): 0 when `earlyExit` is set or the budget is exhausted, otherwise the
remaining budget. -/
def samplesLeft (env : TrainEnv) (s : TrainState) : Nat :=
  if s.earlyExit = true ∨ env.maxNumTrainingSamples ≤ s.total then 0
  else env.maxNumTrainingSamples - s.total

/-- One iteration of the `while (shouldTrain)` body (`TrainingSession.cpp` lines
236-269): fetch a minibatch of size `min(schedule, samplesLeft)` (size 0 means the
fetch is empty and does not contact the source), run the step-executor, read the
new cumulative sample count, and run all periodic actions. Returns the new state
and the step-executor's should-train flag (the loop condition for the next turn). -/
def trainIter (env : TrainEnv) (s : TrainState) : TrainState × Bool :=
  let left := samplesLeft env s
  let mbSize := min (env.mbSchedule s.total) left
  let step := env.trainMinibatch mbSize s.total
  let pa := performActions env.handlers step.2 0 s.earlyExit s.actions
  ({ total := step.2, earlyExit := pa.2, actions := pa.1 }, step.1)

/-- The fuelled `while (shouldTrain)` loop: returns the final state and the
number of iterations executed, or `none` if the fuel ran out first. -/
def trainLoop (env : TrainEnv) : Nat → TrainState → Option (TrainState × Nat)
  | 0, _ => none
  | fuel + 1, s =>
    let it := trainIter env s
    if it.2 then
      match trainLoop env fuel it.1 with
      | none => none
      | some (sf, n) => some (sf, n + 1)
    else some (it.1, 1)

/-- `TrainingSession::Train`'s main loop including the initial
`shouldTrain = maxNumTrainingSamples > 0` state (line 224): with a zero budget the
body never runs. -/
def train (env : TrainEnv) (fuel : Nat) (s : TrainState) : Option (TrainState × Nat) :=
  if 0 < env.maxNumTrainingSamples then trainLoop env fuel s else some (s, 0)

theorem actionStep_snd_true (handler : Nat → Bool) (total : Nat) (a : PeriodicAction) :
    (actionStep handler total a true).2.1 = true := by
  unfold actionStep
  by_cases h : total / a.frequency = a.currentIndex <;> simp [h]

theorem performActions_snd_true (handlers : Nat → Nat → Bool) (total : Nat)
    (l : List PeriodicAction) : ∀ k, (performActions handlers total k true l).2 = true := by
  induction l with
  | nil => intro k; rfl
  | cons a rest ih =>
    intro k
    show (performActions handlers total (k + 1)
      (actionStep (handlers k) total a true).2.1 rest).2 = true
    rw [actionStep_snd_true]
    exact ih (k + 1)

theorem performActions_fst (handlers : Nat → Nat → Bool) (total : Nat)
    (l : List PeriodicAction) : ∀ (k : Nat) (e : Bool),
    (performActions handlers total k e l).1 =
      l.map (fun a => if total / a.frequency = a.currentIndex then a
        else { frequency := a.frequency, currentIndex := total / a.frequency,
               sampleCountWhenLastCalled := total }) := by
  induction l with
  | nil => intro k e; rfl
  | cons a rest ih =>
    intro k e
    show (actionStep (handlers k) total a e).1 ::
        (performActions handlers total (k + 1)
          (actionStep (handlers k) total a e).2.1 rest).1 = _
    rw [List.map_cons, actionStep_fst, ih]

theorem samplesLeft_of_earlyExit (env : TrainEnv) (s : TrainState)
    (h : s.earlyExit = true) : samplesLeft env s = 0 := by
  unfold samplesLeft
  rw [if_pos (Or.inl h)]

/-- Counterexample to C5 as stated: a concrete run (budget 10, constant schedule
5, single checkpoint-style action of frequency 5 whose handler returns false, a
step-executor that adds the requested samples and returns false only on an empty
minibatch). The first iteration fires the action and sets `earlyExit`, yet the
loop does NOT terminate after that iteration's remaining action evaluations: the
should-train flag is still true and a second iteration (with an empty fetch) runs,
for 2 iterations in total. -/
theorem claim_C5_counterexample :
    (trainIter
        { maxNumTrainingSamples := 10, mbSchedule := fun _ => 5,
          trainMinibatch := fun mbSize total => (mbSize != 0, total + mbSize),
          handlers := fun _ _ => false }
        ⟨0, false, [⟨5, 0, 0⟩]⟩).1.earlyExit = true
    ∧ (trainIter
        { maxNumTrainingSamples := 10, mbSchedule := fun _ => 5,
          trainMinibatch := fun mbSize total => (mbSize != 0, total + mbSize),
          handlers := fun _ _ => false }
        ⟨0, false, [⟨5, 0, 0⟩]⟩).2 = true
    ∧ train
        { maxNumTrainingSamples := 10, mbSchedule := fun _ => 5,
          trainMinibatch := fun mbSize total => (mbSize != 0, total + mbSize),
          handlers := fun _ _ => false }
        10 ⟨0, false, [⟨5, 0, 0⟩]⟩ = some (⟨5, true, [⟨5, 1, 5⟩]⟩, 2) := by
  refine ⟨rfl, rfl, rfl⟩

/-- C5 (amended): if a handler returns false, the remaining action evaluations of
the current iteration still run (the action-loop evaluates and updates every
action independently of the accumulated `earlyExit`), and `earlyExit` stays set
for all subsequent iterations; every iteration entered with `earlyExit` set
requests a zero-size (hence empty) minibatch; and — provided the step-executor
reports should-train = false for an empty minibatch — the loop terminates after
exactly one such additional iteration, not within the iteration that set
`earlyExit`. -/
theorem claim_C5 (env : TrainEnv) (s : TrainState)
    (hstop : ∀ total, (env.trainMinibatch 0 total).1 = false) :
    (∀ handlers total k e l, (performActions handlers total k e l).1 =
        l.map (fun a => if total / a.frequency = a.currentIndex then a
          else { frequency := a.frequency, currentIndex := total / a.frequency,
                 sampleCountWhenLastCalled := total }))
    ∧ (s.earlyExit = true → (trainIter env s).1.earlyExit = true)
    ∧ (s.earlyExit = true →
        min (env.mbSchedule s.total) (samplesLeft env s) = 0
        ∧ (trainIter env s).2 = false)
    ∧ (s.earlyExit = true → ∀ fuel, trainLoop env (fuel + 1) s = some ((trainIter env s).1, 1)) := by
  have hmb : s.earlyExit = true → min (env.mbSchedule s.total) (samplesLeft env s) = 0 := by
    intro h
    rw [samplesLeft_of_earlyExit env s h, Nat.min_zero]
  have hcont : s.earlyExit = true → (trainIter env s).2 = false := by
    intro h
    show (env.trainMinibatch (min (env.mbSchedule s.total) (samplesLeft env s)) s.total).1 = false
    rw [hmb h]
    exact hstop s.total
  refine ⟨fun handlers total k e l => performActions_fst handlers total l k e, ?_, ?_, ?_⟩
  · intro h
    show (performActions env.handlers _ 0 s.earlyExit s.actions).2 = true
    rw [h]
    exact performActions_snd_true _ _ _ 0
  · exact fun h => ⟨hmb h, hcont h⟩
  · intro h fuel
    show (if (trainIter env s).2 then _ else some ((trainIter env s).1, 1)) = _
    rw [hcont h]
    simp

/-- Witness for C5 (amended) at a concrete state with `earlyExit` already set:
the next iteration requests a zero-size minibatch, the loop condition becomes
false, and the loop performs exactly one more iteration. -/
theorem claim_C5_witness :
    min 5 (samplesLeft
      { maxNumTrainingSamples := 10, mbSchedule := fun _ => 5,
        trainMinibatch := fun mbSize total => (mbSize != 0, total + mbSize),
        handlers := fun _ _ => false } ⟨5, true, [⟨5, 1, 5⟩]⟩) = 0
    ∧ (trainIter
        { maxNumTrainingSamples := 10, mbSchedule := fun _ => 5,
          trainMinibatch := fun mbSize total => (mbSize != 0, total + mbSize),
          handlers := fun _ _ => false } ⟨5, true, [⟨5, 1, 5⟩]⟩).2 = false
    ∧ trainLoop
        { maxNumTrainingSamples := 10, mbSchedule := fun _ => 5,
          trainMinibatch := fun mbSize total => (mbSize != 0, total + mbSize),
          handlers := fun _ _ => false } 9 ⟨5, true, [⟨5, 1, 5⟩]⟩ =
        some ((trainIter
          { maxNumTrainingSamples := 10, mbSchedule := fun _ => 5,
            trainMinibatch := fun mbSize total => (mbSize != 0, total + mbSize),
            handlers := fun _ _ => false } ⟨5, true, [⟨5, 1, 5⟩]⟩).1, 1) := by
  have h := claim_C5
    { maxNumTrainingSamples := 10, mbSchedule := fun _ => 5,
      trainMinibatch := fun mbSize total => (mbSize != 0, total + mbSize),
      handlers := fun _ _ => false }
    ⟨5, true, [⟨5, 1, 5⟩]⟩ (fun _ => rfl)
  exact ⟨(h.2.2.1 rfl).1, (h.2.2.1 rfl).2, h.2.2.2 rfl 8⟩


/-- Embedding of `isNumber` (`TrainingSession.cpp` lines 19-23): non-empty and
every character a decimal digit. -/
def isNumber (s : WStr) : Bool :=
  !s.isEmpty && s.all (fun c => c.isDigit)

/-- Exact decimal value of a digit string (the mathematical value the digits
denote, before any machine clamping or narrowing). -/
def toNumber (s : WStr) : Nat :=
  s.foldl (fun acc c => acc * 10 + (c.toNat - 48)) 0

/-- The `strtol` call plus the end-pointer check of lines 444-448: `strtol`
consumes the maximal digit prefix, so the check succeeds exactly when the whole
string is digits (for the empty string it returns 0 with the end pointer at the
start, which equals the end, so the check passes). On positive overflow `strtol`
clamps its `long` result to the platform's `LONG_MAX` — passed in as `longMax`
(`2^63 - 1` on an LP64 platform such as the Linux build, `2^31 - 1` on LLP64
Windows) — while the end pointer still covers the whole string. -/
def strtolFull (longMax : Nat) (s : WStr) : Option Nat :=
  if s.all (fun c => c.isDigit) then some (min (toNumber s) longMax) else none

/-- The narrowing conversion in `int value = strtol(...)` (line 446): a
non-negative `long` is reduced to `int` by two's-complement wrap modulo `2^32`
(implementation-defined before C++20, but what MSVC, gcc and clang all do). -/
def intOfLong (v : Nat) : Int :=
  if v % 2 ^ 32 < 2 ^ 31 then ((v % 2 ^ 32 : Nat) : Int)
  else ((v % 2 ^ 32 : Nat) : Int) - 2 ^ 32

/-- The `int` value the discovery loop actually compares for a candidate entry:
the clamped `strtol` value of the numeric suffix, narrowed to `int`. -/
def suffixIntValue (longMax : Nat) (fileName f : WStr) : Int :=
  intOfLong (min (toNumber (f.drop fileName.length)) longMax)

/-- A character `find_last_of(L"\\/")` matches. -/
def isPathSep (c : Char) : Bool := c = '\\' || c = '/'

/-- Index of the last path separator, as `find_last_of` returns it. -/
def findLastOfSep (s : WStr) : Option Nat :=
  s.enum.foldl (fun acc p => if isPathSep p.2 then some p.1 else acc) none

/-- The parent/fileName split of `RestoreFromCheckpoint` (`TrainingSession.cpp`
lines 406-418): no separator gives parent `".."` and the whole path as file name;
otherwise parent is the prefix before the last separator and fileName the rest
(including the separator, exactly as `substr(pos)` does). -/
def splitCheckpointPath (checkpoint : WStr) : WStr × WStr :=
  match findLastOfSep checkpoint with
  | none => (['.', '.'], checkpoint)
  | some pos => (checkpoint.take pos, checkpoint.drop pos)

/-- The `.ckp` completion-marker extension. -/
def ckpExtension : WStr := ['.', 'c', 'k', 'p']

/-- The filter of the discovery loop (lines 433-442): the entry starts with the
configured file name, the remaining suffix is purely numeric, and the sibling
`parent + "/" + f + ".ckp"` file exists. -/
def isCheckpointCandidate (fexists : WStr → Bool) (parent fileName f : WStr) : Bool :=
  fileName.isPrefixOf f && isNumber (f.drop fileName.length)
    && fexists (parent ++ ['/'] ++ f ++ ckpExtension)

/-- The `for (auto f : files)` discovery loop (lines 431-456): track the maximum
suffix value seen (`int maxValue`, initially -1) and the best restore file; a
candidate replaces the best exactly when its `int` value — the clamped `strtol`
result narrowed to `int` — strictly exceeds the maximum. -/
def scanCheckpointFiles (longMax : Nat) (fexists : WStr → Bool) (parent fileName : WStr) :
    List WStr → Int → Option WStr → Option WStr
  | [], _, restoreFile => restoreFile
  | f :: fs, maxValue, restoreFile =>
    if isCheckpointCandidate fexists parent fileName f then
      match strtolFull longMax (f.drop fileName.length) with
      | none => scanCheckpointFiles longMax fexists parent fileName fs maxValue restoreFile
      | some value =>
        if maxValue < intOfLong value then
          scanCheckpointFiles longMax fexists parent fileName fs (intOfLong value)
            (some (parent ++ ['/'] ++ f))
        else scanCheckpointFiles longMax fexists parent fileName fs maxValue restoreFile
    else scanCheckpointFiles longMax fexists parent fileName fs maxValue restoreFile

/-- The discovery part of the no-argument `RestoreFromCheckpoint` (lines 398-460):
restore from the exact configured path if it exists, otherwise scan the parent
directory listing; an empty result means nothing to restore. -/
def restoreFileFromDiscovery (longMax : Nat) (fexists : WStr → Bool) (files : List WStr)
    (checkpoint : WStr) : Option WStr :=
  if fexists checkpoint then some checkpoint
  else
    scanCheckpointFiles longMax fexists (splitCheckpointPath checkpoint).1
      (splitCheckpointPath checkpoint).2 files (-1) none

/-- The no-argument `RestoreFromCheckpoint`'s effect on the orchestrator state
(lines 459-473): if discovery finds nothing, return unchanged; otherwise restore
(the trainer's restored sample counter is `restoredTotal restoreFile`, an external
effect) and recalculate all action indices from it. -/
def restoreFromCheckpointNoArg (longMax : Nat) (fexists : WStr → Bool) (files : List WStr)
    (checkpoint : WStr) (restoredTotal : WStr → Nat)
    (currentTotal : Nat) (actions : List PeriodicAction) : Nat × List PeriodicAction :=
  match restoreFileFromDiscovery longMax fexists files checkpoint with
  | none => (currentTotal, actions)
  | some restoreFile =>
    (restoredTotal restoreFile, restoreActions (restoredTotal restoreFile) actions)

theorem strtolFull_of_isNumber (longMax : Nat) {s : WStr} (h : isNumber s = true) :
    strtolFull longMax s = some (min (toNumber s) longMax) := by
  simp only [isNumber, Bool.and_eq_true] at h
  simp [strtolFull, h.2]

theorem intOfLong_of_lt {v : Nat} (hv : v < 2 ^ 31) : intOfLong v = (v : Int) := by
  unfold intOfLong
  rw [Nat.mod_eq_of_lt (lt_trans hv (by norm_num))]
  rw [if_pos hv]

/-- For suffix values below `2^31` on any real platform (`LONG_MAX ≥ 2^31 - 1`),
the clamp and the narrowing are both the identity. -/
theorem suffixIntValue_of_small {longMax : Nat} (fileName f : WStr)
    (hlm : 2 ^ 31 - 1 ≤ longMax) (hv : toNumber (f.drop fileName.length) < 2 ^ 31) :
    suffixIntValue longMax fileName f = (toNumber (f.drop fileName.length) : Int) := by
  unfold suffixIntValue
  rw [Nat.min_eq_left (le_trans (Nat.le_pred_of_lt hv) hlm)]
  exact intOfLong_of_lt hv

theorem scan_cons_not_cand {longMax : Nat} {fexists : WStr → Bool} {parent fileName f : WStr}
    (fs : List WStr) (mv : Int) (best : Option WStr)
    (hc : isCheckpointCandidate fexists parent fileName f = false) :
    scanCheckpointFiles longMax fexists parent fileName (f :: fs) mv best =
      scanCheckpointFiles longMax fexists parent fileName fs mv best := by
  conv_lhs => rw [scanCheckpointFiles]
  simp [hc]

theorem scan_cons_cand_gt {longMax : Nat} {fexists : WStr → Bool} {parent fileName f : WStr}
    (fs : List WStr) (mv : Int) (best : Option WStr)
    (hc : isCheckpointCandidate fexists parent fileName f = true)
    (hgt : mv < suffixIntValue longMax fileName f) :
    scanCheckpointFiles longMax fexists parent fileName (f :: fs) mv best =
      scanCheckpointFiles longMax fexists parent fileName fs
        (suffixIntValue longMax fileName f) (some (parent ++ ['/'] ++ f)) := by
  have hnum : isNumber (f.drop fileName.length) = true := by
    simp only [isCheckpointCandidate, Bool.and_eq_true] at hc
    exact hc.1.2
  conv_lhs => rw [scanCheckpointFiles]
  rw [strtolFull_of_isNumber longMax hnum]
  simp only [suffixIntValue] at hgt
  simp [hc, hgt, suffixIntValue]

theorem scan_cons_cand_le {longMax : Nat} {fexists : WStr → Bool} {parent fileName f : WStr}
    (fs : List WStr) (mv : Int) (best : Option WStr)
    (hc : isCheckpointCandidate fexists parent fileName f = true)
    (hle : suffixIntValue longMax fileName f ≤ mv) :
    scanCheckpointFiles longMax fexists parent fileName (f :: fs) mv best =
      scanCheckpointFiles longMax fexists parent fileName fs mv best := by
  have hnum : isNumber (f.drop fileName.length) = true := by
    simp only [isCheckpointCandidate, Bool.and_eq_true] at hc
    exact hc.1.2
  conv_lhs => rw [scanCheckpointFiles]
  rw [strtolFull_of_isNumber longMax hnum]
  simp only [suffixIntValue] at hle
  simp [hc, Int.not_lt.mpr hle]

theorem scanCheckpointFiles_eq_none_iff (longMax : Nat) (fexists : WStr → Bool)
    (parent fileName : WStr) (fs : List WStr) : ∀ (mv : Int) (best : Option WStr),
    scanCheckpointFiles longMax fexists parent fileName fs mv best = none ↔
      (best = none ∧ ∀ f ∈ fs, isCheckpointCandidate fexists parent fileName f = true →
        suffixIntValue longMax fileName f ≤ mv) := by
  induction fs with
  | nil =>
    intro mv best
    constructor
    · intro h
      exact ⟨h, by simp⟩
    · rintro ⟨h, -⟩
      exact h
  | cons f fs ih =>
    intro mv best
    by_cases hc : isCheckpointCandidate fexists parent fileName f = true
    · by_cases hgt : mv < suffixIntValue longMax fileName f
      · rw [scan_cons_cand_gt fs mv best hc hgt, ih]
        constructor
        · rintro ⟨h, -⟩
          cases h
        · rintro ⟨hb, hall⟩
          exact absurd (hall f (List.mem_cons_self f fs) hc) (not_le.mpr hgt)
      · have hle := Int.not_lt.mp hgt
        rw [scan_cons_cand_le fs mv best hc hle, ih]
        constructor
        · rintro ⟨hb, hall⟩
          refine ⟨hb, ?_⟩
          intro g hg hcg
          rcases List.mem_cons.mp hg with rfl | hg'
          · exact hle
          · exact hall g hg' hcg
        · rintro ⟨hb, hall⟩
          exact ⟨hb, fun g hg hcg => hall g (List.mem_cons_of_mem f hg) hcg⟩
    · have hc' : isCheckpointCandidate fexists parent fileName f = false := by
        simpa using hc
      rw [scan_cons_not_cand fs mv best hc', ih]
      constructor
      · rintro ⟨hb, hall⟩
        refine ⟨hb, ?_⟩
        intro g hg hcg
        rcases List.mem_cons.mp hg with rfl | hg'
        · rw [hc'] at hcg
          cases hcg
        · exact hall g hg' hcg
      · rintro ⟨hb, hall⟩
        exact ⟨hb, fun g hg hcg => hall g (List.mem_cons_of_mem f hg) hcg⟩

theorem scanCheckpointFiles_eq_some (longMax : Nat) (fexists : WStr → Bool)
    (parent fileName : WStr) (fs : List WStr) : ∀ (mv : Int) (best : Option WStr) (r : WStr),
    scanCheckpointFiles longMax fexists parent fileName fs mv best = some r →
    (best = some r ∧ ∀ g ∈ fs, isCheckpointCandidate fexists parent fileName g = true →
        suffixIntValue longMax fileName g ≤ mv)
    ∨ (∃ f, f ∈ fs ∧ isCheckpointCandidate fexists parent fileName f = true
        ∧ r = parent ++ ['/'] ++ f
        ∧ mv < suffixIntValue longMax fileName f
        ∧ ∀ g ∈ fs, isCheckpointCandidate fexists parent fileName g = true →
            suffixIntValue longMax fileName g ≤ suffixIntValue longMax fileName f) := by
  induction fs with
  | nil =>
    intro mv best r h
    exact Or.inl ⟨h, by simp⟩
  | cons f fs ih =>
    intro mv best r h
    by_cases hc : isCheckpointCandidate fexists parent fileName f = true
    · by_cases hgt : mv < suffixIntValue longMax fileName f
      · rw [scan_cons_cand_gt fs mv best hc hgt] at h
        rcases ih _ _ _ h with ⟨hb, hall⟩ | ⟨f', hf', hc', hr', hgt', hall'⟩
        · right
          refine ⟨f, List.mem_cons_self f fs, hc, (Option.some.inj hb).symm, hgt, ?_⟩
          intro g hg hcg
          rcases List.mem_cons.mp hg with rfl | hg'
          · exact le_refl _
          · exact hall g hg' hcg
        · right
          refine ⟨f', List.mem_cons_of_mem f hf', hc', hr', lt_trans hgt hgt', ?_⟩
          intro g hg hcg
          rcases List.mem_cons.mp hg with rfl | hg'
          · exact le_of_lt hgt'
          · exact hall' g hg' hcg
      · have hle := Int.not_lt.mp hgt
        rw [scan_cons_cand_le fs mv best hc hle] at h
        rcases ih _ _ _ h with ⟨hb, hall⟩ | ⟨f', hf', hc', hr', hgt', hall'⟩
        · left
          refine ⟨hb, ?_⟩
          intro g hg hcg
          rcases List.mem_cons.mp hg with rfl | hg'
          · exact hle
          · exact hall g hg' hcg
        · right
          refine ⟨f', List.mem_cons_of_mem f hf', hc', hr', hgt', ?_⟩
          intro g hg hcg
          rcases List.mem_cons.mp hg with rfl | hg'
          · exact le_of_lt (lt_of_le_of_lt hle hgt')
          · exact hall' g hg' hcg
    · have hc' : isCheckpointCandidate fexists parent fileName f = false := by
        simpa using hc
      rw [scan_cons_not_cand fs mv best hc'] at h
      rcases ih _ _ _ h with ⟨hb, hall⟩ | ⟨f', hf', hcf', hr', hgt', hall'⟩
      · left
        refine ⟨hb, ?_⟩
        intro g hg hcg
        rcases List.mem_cons.mp hg with rfl | hg'
        · rw [hc'] at hcg
          cases hcg
        · exact hall g hg' hcg
      · right
        refine ⟨f', List.mem_cons_of_mem f hf', hcf', hr', hgt', ?_⟩
        intro g hg hcg
        rcases List.mem_cons.mp hg with rfl | hg'
        · rw [hc'] at hcg
          cases hcg
        · exact hall' g hg' hcg

/-- C4 (amended): if a file exists at the exact configured path it is restored
directly. Otherwise candidates are compared not by their exact numeric suffix but
by the `int` value `strtol` (clamped to `LONG_MAX`) narrowed to `int` produces:
discovery returns nothing exactly when every valid candidate's `int` value is
at most -1 (in particular when no valid candidate exists, but also when every
candidate's suffix wraps negative), and a returned file is a valid candidate
whose `int` value exceeds -1 and is maximal among all valid candidates. When
every valid candidate's suffix value is below `2^31` (so clamp and narrowing are
the identity; `LONG_MAX ≥ 2^31 - 1` on every real platform) this coincides with
the original claim: nothing is restored exactly when no valid candidate exists,
and otherwise the candidate with the maximum numeric suffix (numeric comparison,
not lexicographic) is restored. When nothing is found the orchestrator state is
unchanged; when a file is found the actions are recalculated from the restored
counter. -/
theorem claim_C4 (longMax : Nat) (fexists : WStr → Bool) (files : List WStr)
    (checkpoint : WStr) (restoredTotal : WStr → Nat) (currentTotal : Nat)
    (actions : List PeriodicAction) :
    (fexists checkpoint = true →
      restoreFileFromDiscovery longMax fexists files checkpoint = some checkpoint)
    ∧ (fexists checkpoint = false →
      (restoreFileFromDiscovery longMax fexists files checkpoint = none ↔
        ∀ f ∈ files, isCheckpointCandidate fexists (splitCheckpointPath checkpoint).1
            (splitCheckpointPath checkpoint).2 f = true →
          suffixIntValue longMax (splitCheckpointPath checkpoint).2 f ≤ -1))
    ∧ (fexists checkpoint = false →
      ∀ r, restoreFileFromDiscovery longMax fexists files checkpoint = some r →
        ∃ f, f ∈ files
          ∧ isCheckpointCandidate fexists (splitCheckpointPath checkpoint).1
              (splitCheckpointPath checkpoint).2 f = true
          ∧ r = (splitCheckpointPath checkpoint).1 ++ ['/'] ++ f
          ∧ (-1 : Int) < suffixIntValue longMax (splitCheckpointPath checkpoint).2 f
          ∧ ∀ g ∈ files, isCheckpointCandidate fexists (splitCheckpointPath checkpoint).1
              (splitCheckpointPath checkpoint).2 g = true →
              suffixIntValue longMax (splitCheckpointPath checkpoint).2 g ≤
                suffixIntValue longMax (splitCheckpointPath checkpoint).2 f)
    ∧ (fexists checkpoint = false → 2 ^ 31 - 1 ≤ longMax →
      (∀ f ∈ files, isCheckpointCandidate fexists (splitCheckpointPath checkpoint).1
          (splitCheckpointPath checkpoint).2 f = true →
        toNumber (f.drop (splitCheckpointPath checkpoint).2.length) < 2 ^ 31) →
      ((restoreFileFromDiscovery longMax fexists files checkpoint = none ↔
          ∀ f ∈ files, isCheckpointCandidate fexists (splitCheckpointPath checkpoint).1
            (splitCheckpointPath checkpoint).2 f = false)
        ∧ (∀ r, restoreFileFromDiscovery longMax fexists files checkpoint = some r →
            ∃ f, f ∈ files
              ∧ isCheckpointCandidate fexists (splitCheckpointPath checkpoint).1
                  (splitCheckpointPath checkpoint).2 f = true
              ∧ r = (splitCheckpointPath checkpoint).1 ++ ['/'] ++ f
              ∧ ∀ g ∈ files, isCheckpointCandidate fexists (splitCheckpointPath checkpoint).1
                  (splitCheckpointPath checkpoint).2 g = true →
                  toNumber (g.drop (splitCheckpointPath checkpoint).2.length) ≤
                    toNumber (f.drop (splitCheckpointPath checkpoint).2.length))))
    ∧ (restoreFileFromDiscovery longMax fexists files checkpoint = none →
      restoreFromCheckpointNoArg longMax fexists files checkpoint restoredTotal
        currentTotal actions = (currentTotal, actions))
    ∧ (∀ r, restoreFileFromDiscovery longMax fexists files checkpoint = some r →
      restoreFromCheckpointNoArg longMax fexists files checkpoint restoredTotal
        currentTotal actions =
          (restoredTotal r, restoreActions (restoredTotal r) actions)) := by
  have h2 : fexists checkpoint = false →
      (restoreFileFromDiscovery longMax fexists files checkpoint = none ↔
        ∀ f ∈ files, isCheckpointCandidate fexists (splitCheckpointPath checkpoint).1
            (splitCheckpointPath checkpoint).2 f = true →
          suffixIntValue longMax (splitCheckpointPath checkpoint).2 f ≤ -1) := by
    intro h
    unfold restoreFileFromDiscovery
    rw [if_neg (by simp [h])]
    rw [scanCheckpointFiles_eq_none_iff]
    constructor
    · rintro ⟨-, hall⟩
      exact hall
    · intro hall
      exact ⟨rfl, hall⟩
  have h3 : fexists checkpoint = false →
      ∀ r, restoreFileFromDiscovery longMax fexists files checkpoint = some r →
        ∃ f, f ∈ files
          ∧ isCheckpointCandidate fexists (splitCheckpointPath checkpoint).1
              (splitCheckpointPath checkpoint).2 f = true
          ∧ r = (splitCheckpointPath checkpoint).1 ++ ['/'] ++ f
          ∧ (-1 : Int) < suffixIntValue longMax (splitCheckpointPath checkpoint).2 f
          ∧ ∀ g ∈ files, isCheckpointCandidate fexists (splitCheckpointPath checkpoint).1
              (splitCheckpointPath checkpoint).2 g = true →
              suffixIntValue longMax (splitCheckpointPath checkpoint).2 g ≤
                suffixIntValue longMax (splitCheckpointPath checkpoint).2 f := by
    intro h r hr
    unfold restoreFileFromDiscovery at hr
    rw [if_neg (by simp [h])] at hr
    rcases scanCheckpointFiles_eq_some longMax fexists _ _ files (-1) none r hr with
      ⟨hb, -⟩ | ⟨f, hf, hc, hr', hgt, hall⟩
    · cases hb
    · exact ⟨f, hf, hc, hr', hgt, hall⟩
  refine ⟨?_, h2, h3, ?_, ?_, ?_⟩
  · intro h
    unfold restoreFileFromDiscovery
    simp [h]
  · intro h hlm hsmall
    constructor
    · rw [h2 h]
      constructor
      · intro hall f hf
        by_cases hc : isCheckpointCandidate fexists (splitCheckpointPath checkpoint).1
            (splitCheckpointPath checkpoint).2 f = true
        · exfalso
          have hv := hall f hf hc
          rw [suffixIntValue_of_small _ _ hlm (hsmall f hf hc)] at hv
          omega
        · simpa using hc
      · intro hall f hf hc
        rw [hall f hf] at hc
        cases hc
    · intro r hr
      obtain ⟨f, hf, hc, hrf, -, hmax⟩ := h3 h r hr
      refine ⟨f, hf, hc, hrf, ?_⟩
      intro g hg hcg
      have hle := hmax g hg hcg
      rw [suffixIntValue_of_small _ _ hlm (hsmall g hg hcg),
          suffixIntValue_of_small _ _ hlm (hsmall f hf hc)] at hle
      exact_mod_cast hle
  · intro h
    unfold restoreFromCheckpointNoArg
    rw [h]
  · intro r h
    unfold restoreFromCheckpointNoArg
    rw [h]

/-- Directory listing for the C4 counterexample: entries `m5` and `m2147483648`. -/
def filesC4cex : List WStr :=
  [['m', '5'], ['m', '2', '1', '4', '7', '4', '8', '3', '6', '4', '8']]

/-- File-existence oracle for the C4 counterexample: the configured path `m` does
not exist; the `.ckp` completion markers exist for both entries, so both are
valid candidates. -/
def fexistsC4cex : WStr → Bool := fun p =>
  [ ['.', '.', '/', 'm', '5', '.', 'c', 'k', 'p'],
    ['.', '.', '/', 'm', '2', '1', '4', '7', '4', '8', '3', '6', '4', '8', '.',
     'c', 'k', 'p'] ].contains p

/-- Counterexample to C4 as stated, on an LP64 platform (`LONG_MAX = 2^63 - 1`,
the Linux build): `m5` and `m2147483648` are both valid candidates and
`2147483648 > 5` numerically, yet discovery restores `../m5` — the suffix
`2147483648 = 2^31` survives `strtol` unclamped but the `long`-to-`int` narrowing
wraps it to `-2^31`, which loses to 5 (and even to the initial `maxValue = -1`:
with `m2147483648` as the only entry, nothing is restored at all although a valid
candidate with the maximum numeric suffix exists). -/
theorem claim_C4_counterexample :
    isCheckpointCandidate fexistsC4cex ['.', '.'] ['m'] ['m', '5'] = true
    ∧ isCheckpointCandidate fexistsC4cex ['.', '.'] ['m']
        ['m', '2', '1', '4', '7', '4', '8', '3', '6', '4', '8'] = true
    ∧ toNumber (['m', '5'].drop 1) <
        toNumber (['m', '2', '1', '4', '7', '4', '8', '3', '6', '4', '8'].drop 1)
    ∧ restoreFileFromDiscovery (2 ^ 63 - 1) fexistsC4cex filesC4cex ['m'] =
        some ['.', '.', '/', 'm', '5']
    ∧ restoreFileFromDiscovery (2 ^ 63 - 1) fexistsC4cex
        [['m', '2', '1', '4', '7', '4', '8', '3', '6', '4', '8']] ['m'] = none := by
  decide

/-- Directory listing for the C4 witness: entries `m9`, `m10`, `mX`. -/
def filesW : List WStr := [['m', '9'], ['m', '1', '0'], ['m', 'X']]

/-- File-existence oracle for the C4 witness: the configured path `m` does not
exist; the `.ckp` completion markers exist for all three entries (so `mX` is
rejected purely for its non-numeric suffix). -/
def fexistsW : WStr → Bool := fun p =>
  [ ['.', '.', '/', 'm', '9', '.', 'c', 'k', 'p'],
    ['.', '.', '/', 'm', '1', '0', '.', 'c', 'k', 'p'],
    ['.', '.', '/', 'm', 'X', '.', 'c', 'k', 'p'] ].contains p

/-- Witness for C4 (amended) at a concrete in-range input on LP64: the configured
path `m` is absent, all candidate suffixes (9 and 10) are below `2^31`, so
discovery selects `../m10` — numeric-maximal (10 > 9), although `m9` is the
lexicographic maximum — discovery is non-empty exactly because a valid candidate
exists, and the restore recalculates the action list from the restored counter 42. -/
theorem claim_C4_witness :
    restoreFileFromDiscovery (2 ^ 63 - 1) fexistsW filesW ['m'] =
      some ['.', '.', '/', 'm', '1', '0']
    ∧ (restoreFileFromDiscovery (2 ^ 63 - 1) fexistsW filesW ['m'] = none ↔
        ∀ f ∈ filesW, isCheckpointCandidate fexistsW (splitCheckpointPath ['m']).1
          (splitCheckpointPath ['m']).2 f = false)
    ∧ restoreFromCheckpointNoArg (2 ^ 63 - 1) fexistsW filesW ['m'] (fun _ => 42) 7
        [⟨5, 2, 11⟩] = (42, restoreActions 42 [⟨5, 2, 11⟩]) := by
  have h := claim_C4 (2 ^ 63 - 1) fexistsW filesW ['m'] (fun _ => 42) 7 [⟨5, 2, 11⟩]
  refine ⟨by decide, (h.2.2.2.1 (by decide) (by decide) (by decide)).1,
    h.2.2.2.2.2 ['.', '.', '/', 'm', '1', '0'] (by decide)⟩
